import Mathlib

/-!
Shallow embedding of `salt/client/mixins.py`: the function dispatch and
asynchronous job execution layer (`SyncClientMixin` and `AsyncClientMixin`).

Python dictionaries are modelled as association lists, Python exceptions as an
explicit `Except` error channel carrying the exception class name and message,
and the side effects of the worker (`_proc_function`) as an explicit trace of
actions (daemonize, bus open/close, event firing, invocation).  Values returned
by registered callables are a type parameter `V`.
-/

namespace Salt

/-- A single-quote character, used to model Python `repr` of a string. -/
def squote : String := String.singleton (Char.ofNat 39)

/-- Python `repr` of a string (quoting only; escape sequences are out of scope). -/
def pyRepr (s : String) : String := squote ++ s ++ squote

/-- Python `str` applied to an optional string (`None` prints as `"None"`). -/
def pyStr : Option String → String
  | none => "None"
  | some s => s

/-- Python truthiness of an optional string: `None` and `""` are falsy. -/
def pyTruthy : Option String → Bool
  | none => false
  | some s => s != ""

/-- A Python exception, reduced to its class name and its message (`str(exc)`). -/
structure PyExc where
  className : String
  message : String
deriving DecidableEq, Repr

/-- A registered callable: its declared parameter names, whether it accepts
variadic keywords, its implementation (receiving positional and keyword
arguments), and its inline documentation (`__doc__`). -/
structure Callable (V : Type) where
  params : List String
  hasVarKw : Bool
  impl : List V → List (String × V) → Except PyExc V
  doc : Option String

/-- The "low data" call specification: the reserved ordered-arguments entry and
the named entries. -/
structure LowData (V : Type) where
  args : List V
  kw : List (String × V)

/-- The result of `format_call`: resolved positional and keyword arguments. -/
structure FCall (V : Type) where
  args : List V
  kwargs : List (String × V)

/-- Association-list lookup, modelling Python dict indexing by a string key. -/
def alookup (k : String) : List (String × α) → Option α
  | [] => none
  | p :: ps => if p.1 = k then some p.2 else alookup k ps

/-- The keys of an association list, modelling iteration over a Python dict. -/
def keys (l : List (String × α)) : List String := l.map Prod.fst

/-- Embeds `SyncClientMixin`: carries the function registry `self.functions`. -/
structure SyncClient (V : Type) where
  functions : List (String × Callable V)

/-- The `CommandExecutionError` raised by `_verify_fun` when no function is
specified. -/
def notSpecifiedError : PyExc :=
  ⟨"CommandExecutionError", "Must specify a function to run"⟩

/-- The `CommandExecutionError` raised by `_verify_fun` for an unregistered
function name (`'Function {0!r} is unavailable'.format(fun)`). -/
def unavailableError (fn : String) : PyExc :=
  ⟨"CommandExecutionError", "Function " ++ pyRepr fn ++ " is unavailable"⟩

/-- Embeds `SyncClientMixin._verify_fun`: check that the function passed really
exists.  Pure: it only inspects the registry and either returns or raises. -/
def SyncClient._verify_fun (cl : SyncClient V) (fn : Option String) : Except PyExc Unit :=
  if !(pyTruthy fn) then
    Except.error notSpecifiedError
  else if (alookup (pyStr fn) cl.functions).isNone then
    Except.error (unavailableError (pyStr fn))
  else
    Except.ok ()

/-- Modelled from the spec: `salt.utils.format_call` is not under `src/`.
Spec §4.1 resolution algorithm: entries matching declared parameter names are
bound as keyword arguments; the reserved ordered-arguments entry is consumed as
the positional argument list; anything else is rejected unless the callable
accepts variadic keywords, in which case it passes through as extra keywords. -/
def format_call (c : Callable V) (ld : LowData V) : Except PyExc (FCall V) :=
  let matched := ld.kw.filter (fun p => c.params.contains p.1)
  let extra := ld.kw.filter (fun p => !(c.params.contains p.1))
  if extra.isEmpty || c.hasVarKw then
    Except.ok ⟨ld.args, matched ++ extra⟩
  else
    Except.error ⟨"SaltInvocationError", "unexpected keyword argument"⟩

/-- Embeds `SyncClientMixin.low`: execute a function from low data.  Verifies the
name, looks the callable up, resolves the call specification and executes it,
returning the callable's result unchanged. -/
def SyncClient.low (cl : SyncClient V) (fn : Option String) (ld : LowData V) :
    Except PyExc V := do
  cl._verify_fun fn
  match fn.bind (fun s => alookup s cl.functions) with
  | some l_fun => do
      let f_call ← format_call l_fun ld
      l_fun.impl f_call.args f_call.kwargs
  | none => Except.error ⟨"KeyError", pyStr fn⟩

/-- Python string comparison (lexicographic by code point), expressed on the
underlying character lists; provably the same order as `String.le`. -/
def pyle (a b : String) : Prop := a.data ≤ b.data

instance : DecidableRel pyle := fun a b =>
  inferInstanceAs (Decidable (a.data ≤ b.data))

instance : IsTotal String pyle :=
  ⟨fun a b => (le_total a b).imp String.le_iff_toList_le.mp String.le_iff_toList_le.mp⟩

instance : IsTrans String pyle :=
  ⟨fun _ _ _ h1 h2 => String.le_iff_toList_le.mp
    (le_trans (String.le_iff_toList_le.mpr h1) (String.le_iff_toList_le.mpr h2))⟩

/-- Python `s.startswith(pre)`, on the underlying character lists. -/
def strStartsWith (s pre : String) : Bool := pre.data.isPrefixOf s.data

/-- Python `s.endswith(suf)`, on the underlying character lists. -/
def strEndsWith (s suf : String) : Bool := suf.data.isSuffixOf s.data

/-- Modelled from the spec: `salt.utils.doc.strip_rst` is not under `src/`.
The spec says documentation text is returned "stripped of structured-markup
syntax", names untouched; the stripping transformation on one documentation
string is taken as a parameter. -/
def strip_rst (strip : Option String → Option String)
    (docs : List (String × Option String)) : List (String × Option String) :=
  docs.map (fun p => (p.1, strip p.2))

/-- Embeds `SyncClientMixin.get_docs`: return the functions and the inline
documentation for each, names sorted, optionally restricted by `arg`. -/
def SyncClient.get_docs (cl : SyncClient V) (strip : Option String → Option String)
    (arg : Option String) : List (String × Option String) :=
  let sortedFuns := List.insertionSort pyle (keys cl.functions)
  let docs :=
    if pyTruthy arg then
      let a := pyStr arg
      let target_mod := if strEndsWith a "." then a else a ++ "."
      (sortedFuns.filter (fun f => f == a || strStartsWith f target_mod)).map
        (fun f => (f, (alookup f cl.functions).bind Callable.doc))
    else
      sortedFuns.map (fun f => (f, (alookup f cl.functions).bind Callable.doc))
  strip_rst strip docs

instance [DecidableEq ε] [DecidableEq α] : DecidableEq (Except ε α) := fun a b =>
  match a, b with
  | Except.ok x, Except.ok y => decidable_of_iff (x = y) (by simp)
  | Except.error x, Except.error y => decidable_of_iff (x = y) (by simp)
  | Except.ok _, Except.error _ => isFalse (by simp)
  | Except.error _, Except.ok _ => isFalse (by simp)

/-- An event payload (`data` in `_proc_function`): the `fun`, `jid`, `user`,
`return` and `success` keys; the last two are absent before completion. -/
structure Payload (V : Type) where
  fn : String
  jid : String
  user : String
  ret : Option (Except String V)
  success : Option Bool
deriving DecidableEq, Repr

/-- One observable side effect of the worker `_proc_function`. -/
inductive Action (V : Type) where
  | daemonize
  | openBus
  | fire (topic : String) (payload : Payload V)
  | invoke (fn : Option String)
  | closeBus
deriving DecidableEq, Repr

/-- Embeds `AsyncClientMixin` combined with the sync mixin, as the concrete client
classes do: `self.client`, `self.tag_prefix`, and the inherited registry. -/
structure AsyncClient (V : Type) where
  client : String
  tagPref : Option String
  sync : SyncClient V

/-- Modelled from the spec: `salt.utils.event.tagify` is not under `src/`.
The spec fixes the topic convention: start topic `tag/new`, completion topic
`tag/ret` (concrete scenario `salt/job/<jid>/new`), joining parts with `/`. -/
def tagify (suffix : String) (base : String) : String := base ++ "/" ++ suffix

/-- Modelled from the spec: the tag of a job joins the configured namespace
prefix with the job id (`salt/job/<jid>` in the spec's concrete scenario); with
no configured prefix the tag is the job id itself. -/
def tagifyJid (jid : String) (pre : Option String) : String :=
  match pre with
  | some p => p ++ "/" ++ jid
  | none => jid

/-- The failure summary recorded by `_proc_function` when the invocation
raises: `'Exception occurred in {0} {1}: {2}: {3}'` formatted with the client
kind, the function name, the exception class name and the exception message. -/
def excSummary (client : String) (fn : Option String) (e : PyExc) : String :=
  "Exception occurred in " ++ client ++ " " ++ pyStr fn ++ ": "
    ++ e.className ++ ": " ++ e.message

/-- The payload fired on the `new` topic: `fun`, `jid` and `user` keys only. -/
def procData0 (cl : AsyncClient V) (fn : Option String) (user jid : String) :
    Payload V :=
  ⟨cl.client ++ "." ++ pyStr fn, jid, user, none, none⟩

/-- The completion payload of `_proc_function`: the start payload extended with
`return`/`success` — the invocation result on success, the exception summary
with `success = false` on failure — and `user` set again. -/
def procPayload (cl : AsyncClient V) (fn : Option String) (ld : LowData V)
    (user jid : String) : Payload V :=
  let data := procData0 cl fn user jid
  let data :=
    match cl.sync.low fn ld with
    | Except.ok v => { data with ret := some (Except.ok v), success := some true }
    | Except.error exc =>
        { data with ret := some (Except.error (excSummary cl.client fn exc)),
                    success := some false }
  { data with user := user }

/-- Embeds `AsyncClientMixin._proc_function` as the trace of its observable actions:
daemonize; if firing events, open the bus and fire the start event; invoke the
function (any exception is caught when building the completion payload); if
firing events, fire the completion event and release the bus connection. -/
def AsyncClient._proc_function (cl : AsyncClient V) (fn : Option String)
    (ld : LowData V) (user tag jid : String) (fire_event : Bool) :
    List (Action V) :=
  [Action.daemonize]
    ++ (if fire_event then
          [Action.openBus, Action.fire (tagify "new" tag) (procData0 cl fn user jid)]
        else [])
    ++ [Action.invoke fn]
    ++ (if fire_event then
          [Action.fire (tagify "ret" tag) (procPayload cl fn ld user jid),
           Action.closeBus]
        else [])

/-- A clock reading of `datetime.datetime.now()` at microsecond resolution. -/
structure DateTime where
  year : Nat
  month : Nat
  day : Nat
  hour : Nat
  minute : Nat
  second : Nat
  usec : Nat
deriving DecidableEq, Repr

/-- The ranges `datetime.datetime.now()` actually produces (Python restricts
years to at most 9999; this development also assumes years of four digits,
which holds for every reachable wall-clock reading). -/
def DateTime.Valid (t : DateTime) : Prop :=
  1000 ≤ t.year ∧ t.year ≤ 9999 ∧ 1 ≤ t.month ∧ t.month ≤ 12 ∧
    1 ≤ t.day ∧ t.day ≤ 31 ∧ t.hour ≤ 23 ∧ t.minute ≤ 59 ∧
    t.second ≤ 59 ∧ t.usec ≤ 999999

instance (t : DateTime) : Decidable t.Valid := by
  unfold DateTime.Valid
  infer_instance

/-- Chronological strict order on clock readings: lexicographic on the fields
from year down to microsecond. -/
def DateTime.Before (s t : DateTime) : Prop :=
  s.year < t.year ∨ (s.year = t.year ∧
    (s.month < t.month ∨ (s.month = t.month ∧
      (s.day < t.day ∨ (s.day = t.day ∧
        (s.hour < t.hour ∨ (s.hour = t.hour ∧
          (s.minute < t.minute ∨ (s.minute = t.minute ∧
            (s.second < t.second ∨ (s.second = t.second ∧
              s.usec < t.usec)))))))))))

instance (s t : DateTime) : Decidable (s.Before t) := by
  unfold DateTime.Before
  infer_instance

/-- The last `w` decimal digits of `n`, zero padded to exactly width `w`, as
characters; for `n < 10 ^ w` this is the zero-padded decimal numeral of `n`. -/
def padDigits : Nat → Nat → List Char
  | 0, _ => []
  | w + 1, n => Char.ofNat (48 + n / 10 ^ w % 10) :: padDigits w n

/-- The job id generated by `async`:
`'{0:%Y%m%d%H%M%S%f}'.format(datetime.datetime.now())`, a 20-character string
of zero-padded decimal fields. -/
def jidOf (t : DateTime) : String :=
  ⟨padDigits 4 t.year ++ padDigits 2 t.month ++ padDigits 2 t.day
    ++ padDigits 2 t.hour ++ padDigits 2 t.minute ++ padDigits 2 t.second
    ++ padDigits 6 t.usec⟩

/-- The dictionary `async` returns to the caller. -/
structure AsyncHandle where
  tag : String
  jid : String
deriving DecidableEq, Repr

/-- The argument bundle `async` hands to the spawned worker process. -/
structure WorkerSpawn (V : Type) where
  fn : Option String
  low : LowData V
  user : String
  tag : String
  jid : String
  fire_event : Bool

/-- Embeds `AsyncClientMixin.async`: generate the jid from the clock, build the tag,
spawn `_proc_function` with the bundled arguments, and return the handle
immediately.  The spawned call is returned as data (the dispatcher itself never
runs it). -/
def AsyncClient.async (cl : AsyncClient V) (now : DateTime) (fn : Option String)
    (ld : LowData V) (user : String) (fire_event : Bool) :
    AsyncHandle × WorkerSpawn V :=
  let jid := jidOf now
  let tag := tagifyJid jid cl.tagPref
  (⟨tag, jid⟩, ⟨fn, ld, user, tag, jid, fire_event⟩)

/-- The bus events of a worker trace, in publication order: topic and payload
of each `fire` action. -/
def firedEvents (tr : List (Action V)) : List (String × Payload V) :=
  tr.filterMap (fun a =>
    match a with
    | Action.fire t p => some (t, p)
    | _ => none)

/-- The bus-connection lifecycle actions of a worker trace, in order. -/
def busActions (tr : List (Action V)) : List (Action V) :=
  tr.filter (fun a =>
    match a with
    | Action.openBus => true
    | Action.closeBus => true
    | _ => false)

/-- Aggregated timestamp: year and month, mixed radix 100. -/
def DateTime.s2 (t : DateTime) : Nat := t.year * 100 + t.month

/-- Aggregated timestamp down to the day. -/
def DateTime.s3 (t : DateTime) : Nat := t.s2 * 100 + t.day

/-- Aggregated timestamp down to the hour. -/
def DateTime.s4 (t : DateTime) : Nat := t.s3 * 100 + t.hour

/-- Aggregated timestamp down to the minute. -/
def DateTime.s5 (t : DateTime) : Nat := t.s4 * 100 + t.minute

/-- Aggregated timestamp down to the second. -/
def DateTime.s6 (t : DateTime) : Nat := t.s5 * 100 + t.second

/-- The whole clock reading as one number: the value whose 20-digit decimal
numeral is the jid string. -/
def DateTime.stamp (t : DateTime) : Nat := t.s6 * 1000000 + t.usec

/-- A concrete registered callable used to exercise the theorems: no declared
parameters, returns `7`. -/
def pingFn : Callable Nat := ⟨[], false, fun _ _ => Except.ok 7, some "ping doc"⟩

/-- A concrete registered callable that always raises `ValueError`. -/
def boomFn : Callable Nat :=
  ⟨[], false, fun _ _ => Except.error ⟨"ValueError", "boom"⟩, some "boom doc"⟩

/-- A concrete registered callable named `pkg` in the demo registry. -/
def pkgFn : Callable Nat := ⟨[], false, fun _ _ => Except.ok 1, some "pkg doc"⟩

/-- A concrete registered callable named `pkg.install` in the demo registry. -/
def pkgInstallFn : Callable Nat :=
  ⟨[], false, fun _ _ => Except.ok 2, some "pkg.install doc"⟩

/-- A concrete registered callable named `pkgx`, with no documentation. -/
def pkgxFn : Callable Nat := ⟨[], false, fun _ _ => Except.ok 3, none⟩

/-- A concrete registry, deliberately not in sorted order. -/
def demoClient : SyncClient Nat :=
  ⟨[("test.ping", pingFn), ("boom", boomFn), ("pkg", pkgFn),
    ("pkg.install", pkgInstallFn), ("pkgx", pkgxFn)]⟩

/-- A concrete async client over the demo registry. -/
def demoAsync : AsyncClient Nat := ⟨"runner", some "salt/run", demoClient⟩

/-- An async client with the same tag prefix but an empty registry, used to
show the dispatch handle does not depend on the registry. -/
def demoAsync2 : AsyncClient Nat := ⟨"runner", some "salt/run", ⟨[]⟩⟩

/-- A concrete clock reading, and a strictly later one. -/
def demoTime1 : DateTime := ⟨2014, 1, 2, 3, 4, 5, 6⟩

/-- A clock reading one microsecond after `demoTime1`. -/
def demoTime2 : DateTime := ⟨2014, 1, 2, 3, 4, 5, 7⟩

theorem pyle_iff (a b : String) : pyle a b ↔ a ≤ b :=
  String.le_iff_toList_le.symm

theorem alookup_isSome_iff {l : List (String × α)} {k : String} :
    (alookup k l).isSome ↔ k ∈ keys l := by
  induction l with
  | nil => simp [alookup, keys]
  | cons p ps ih =>
      simp only [alookup, keys, List.map_cons, List.mem_cons]
      by_cases h : p.1 = k
      · simp [h]
      · have h' : ¬k = p.1 := fun hk => h hk.symm
        simp [h, h', ih, keys]

theorem verify_ok_iff (cl : SyncClient V) (fn : Option String) :
    cl._verify_fun fn = Except.ok () ↔
      ∃ s, fn = some s ∧ s ≠ "" ∧ s ∈ keys cl.functions := by
  cases fn with
  | none => simp [SyncClient._verify_fun, pyTruthy]
  | some s =>
      by_cases hs : s = ""
      · subst hs
        simp [SyncClient._verify_fun, pyTruthy]
      · have ht : pyTruthy (some s) = true := by simp [pyTruthy, hs]
        by_cases hm : s ∈ keys cl.functions
        · have : (alookup s cl.functions).isSome := alookup_isSome_iff.mpr hm
          simp [SyncClient._verify_fun, ht, pyStr, Option.isNone_iff_eq_none,
            Option.isSome_iff_exists] at *
          obtain ⟨v, hv⟩ := this
          simp [hv, hs, hm]
        · have : ¬(alookup s cl.functions).isSome :=
            fun h => hm (alookup_isSome_iff.mp h)
          have hnone : alookup s cl.functions = none := by
            cases hl : alookup s cl.functions with
            | none => rfl
            | some v => exact absurd (by simp [hl]) this
          simp [SyncClient._verify_fun, ht, pyStr, hnone, hs, hm]

theorem verify_not_specified (cl : SyncClient V) (fn : Option String)
    (h : fn = none ∨ fn = some "") :
    cl._verify_fun fn = Except.error notSpecifiedError := by
  rcases h with rfl | rfl <;> simp [SyncClient._verify_fun, pyTruthy]

theorem verify_unavailable (cl : SyncClient V) (s : String) (hs : s ≠ "")
    (hm : s ∉ keys cl.functions) :
    cl._verify_fun (some s) = Except.error (unavailableError s) := by
  have ht : pyTruthy (some s) = true := by simp [pyTruthy, hs]
  have hnone : alookup s cl.functions = none := by
    cases hl : alookup s cl.functions with
    | none => rfl
    | some v => exact absurd (alookup_isSome_iff.mp (by simp [hl])) hm
  simp [SyncClient._verify_fun, ht, pyStr, hnone]

theorem low_of_verify_error (cl : SyncClient V) (fn : Option String)
    (ld : LowData V) (e : PyExc) (h : cl._verify_fun fn = Except.error e) :
    cl.low fn ld = Except.error e := by
  simp only [SyncClient.low, h]
  rfl

theorem low_of_callable (cl : SyncClient V) (s : String) (ld : LowData V)
    (c : Callable V) (fc : FCall V)
    (hok : cl._verify_fun (some s) = Except.ok ())
    (hc : alookup s cl.functions = some c)
    (hfc : format_call c ld = Except.ok fc) :
    cl.low (some s) ld = c.impl fc.args fc.kwargs := by
  simp only [SyncClient.low, hok, Option.bind_some, Option.some_bind, hc, hfc]
  rfl

/-- C3: `_verify_fun f` succeeds exactly when `f` is a non-empty key of the
functions registry; it raises the not-specified `CommandExecutionError` when
`f` is `None` or empty, and the unavailable `CommandExecutionError` when `f`
is non-empty but not registered.  It is a pure function of the client and the
name, so it has no side effects. -/
theorem verify_fun_spec (cl : SyncClient V) (fn : Option String) :
    (cl._verify_fun fn = Except.ok () ↔
      ∃ s, fn = some s ∧ s ≠ "" ∧ s ∈ keys cl.functions) ∧
    ((fn = none ∨ fn = some "") →
      cl._verify_fun fn = Except.error notSpecifiedError) ∧
    (∀ s, fn = some s → s ≠ "" → s ∉ keys cl.functions →
      cl._verify_fun fn = Except.error (unavailableError s)) :=
  ⟨verify_ok_iff cl fn, verify_not_specified cl fn,
   fun s hfn hs hm => hfn ▸ verify_unavailable cl s hs hm⟩

/-- Witness for C3 on the demo registry: a registered name passes, an absent
name raises not-specified, an unregistered name raises unavailable. -/
theorem verify_fun_spec_witness :
    demoClient._verify_fun (some "test.ping") = Except.ok () ∧
    demoClient._verify_fun none = Except.error notSpecifiedError ∧
    demoClient._verify_fun (some "nope") = Except.error (unavailableError "nope") :=
  ⟨(verify_fun_spec demoClient (some "test.ping")).1.mpr
      ⟨"test.ping", rfl, by decide, by decide⟩,
   (verify_fun_spec demoClient none).2.1 (Or.inl rfl),
   (verify_fun_spec demoClient (some "nope")).2.2 "nope" rfl (by decide) (by decide)⟩

/-- C4: `low` performs verification first, propagating a verification failure
unchanged, and otherwise — for a registered callable whose call specification
resolves — returns exactly what the callable returns: its value of any type on
success, its exception unmodified on failure. -/
theorem low_spec (cl : SyncClient V) (fn : String) (ld : LowData V) :
    (∀ e, cl._verify_fun (some fn) = Except.error e →
      cl.low (some fn) ld = Except.error e) ∧
    (∀ c fc, cl._verify_fun (some fn) = Except.ok () →
      alookup fn cl.functions = some c → format_call c ld = Except.ok fc →
      cl.low (some fn) ld = c.impl fc.args fc.kwargs) :=
  ⟨fun e he => low_of_verify_error cl (some fn) ld e he,
   fun c fc hok hc hfc => low_of_callable cl fn ld c fc hok hc hfc⟩

/-- Witness for C4 on the demo registry: `test.ping` returns its value `7`
unchanged, `boom` propagates its `ValueError` unchanged, and an empty name
propagates the verification failure. -/
theorem low_spec_witness :
    demoClient.low (some "test.ping") ⟨[], []⟩ = Except.ok 7 ∧
    demoClient.low (some "boom") ⟨[], []⟩ = Except.error ⟨"ValueError", "boom"⟩ ∧
    demoClient.low (some "") ⟨[], []⟩ = Except.error notSpecifiedError :=
  ⟨((low_spec demoClient "test.ping" ⟨[], []⟩).2 pingFn ⟨[], []⟩
      (by decide) rfl rfl).trans rfl,
   ((low_spec demoClient "boom" ⟨[], []⟩).2 boomFn ⟨[], []⟩
      (by decide) rfl rfl).trans rfl,
   (low_spec demoClient "" ⟨[], []⟩).1 notSpecifiedError (by decide)⟩

theorem procPayload_jid (cl : AsyncClient V) (fn : Option String) (ld : LowData V)
    (user jid : String) : (procPayload cl fn ld user jid).jid = jid := by
  cases h : cl.sync.low fn ld <;> simp [procPayload, procData0, h]

theorem procPayload_of_error (cl : AsyncClient V) (fn : Option String)
    (ld : LowData V) (user jid : String) (e : PyExc)
    (he : cl.sync.low fn ld = Except.error e) :
    procPayload cl fn ld user jid =
      ⟨cl.client ++ "." ++ pyStr fn, jid, user,
       some (Except.error (excSummary cl.client fn e)), some false⟩ := by
  simp [procPayload, procData0, he]

theorem procPayload_of_ok (cl : AsyncClient V) (fn : Option String)
    (ld : LowData V) (user jid : String) (v : V)
    (hv : cl.sync.low fn ld = Except.ok v) :
    procPayload cl fn ld user jid =
      ⟨cl.client ++ "." ++ pyStr fn, jid, user, some (Except.ok v), some true⟩ := by
  simp [procPayload, procData0, hv]

theorem excSummary_ne_empty (client : String) (fn : Option String) (e : PyExc) :
    excSummary client fn e ≠ "" := by
  intro h
  have hlen := congrArg String.length h
  rw [excSummary] at hlen
  simp only [String.length_append] at hlen
  have h22 : ("Exception occurred in " : String).length = 22 := rfl
  have h0 : ("" : String).length = 0 := rfl
  rw [h22, h0] at hlen
  omega

theorem procPayload_success_of_verify_error (cl : AsyncClient V)
    (fn : Option String) (ld : LowData V) (user jid : String) (e : PyExc)
    (he : cl.sync._verify_fun fn = Except.error e) :
    (procPayload cl fn ld user jid).success = some false := by
  have hl := low_of_verify_error cl.sync fn ld e he
  simp [procPayload, procData0, hl]

/-- C1: when the dispatched function raises, the worker contains the failure:
the completion payload carries `success = false` and its `return` is the
non-empty human-readable summary containing the client kind, the function
name, the exception class name and the exception message; the worker still
reaches and publishes the completion event, so nothing propagates to the
dispatcher. -/
theorem proc_function_failure (cl : AsyncClient V) (fn : Option String)
    (ld : LowData V) (user tag jid : String) (e : PyExc)
    (he : cl.sync.low fn ld = Except.error e) :
    (procPayload cl fn ld user jid).success = some false ∧
    (procPayload cl fn ld user jid).ret
      = some (Except.error (excSummary cl.client fn e)) ∧
    excSummary cl.client fn e ≠ "" ∧
    (∃ a b, excSummary cl.client fn e = a ++ (cl.client ++ b)) ∧
    (∃ a b, excSummary cl.client fn e = a ++ (pyStr fn ++ b)) ∧
    (∃ a b, excSummary cl.client fn e = a ++ (e.className ++ b)) ∧
    (∃ a b, excSummary cl.client fn e = a ++ (e.message ++ b)) ∧
    Action.fire (tagify "ret" tag) (procPayload cl fn ld user jid)
      ∈ cl._proc_function fn ld user tag jid true := by
  refine ⟨by simp [procPayload_of_error cl fn ld user jid e he],
    by simp [procPayload_of_error cl fn ld user jid e he],
    excSummary_ne_empty cl.client fn e,
    ⟨"Exception occurred in ",
     " " ++ pyStr fn ++ (": " ++ (e.className ++ (": " ++ e.message))),
     by simp [excSummary, String.append_assoc]⟩,
    ⟨"Exception occurred in " ++ cl.client ++ " ",
     ": " ++ (e.className ++ (": " ++ e.message)),
     by simp [excSummary, String.append_assoc]⟩,
    ⟨"Exception occurred in " ++ cl.client ++ " " ++ pyStr fn ++ ": ",
     ": " ++ e.message,
     by simp [excSummary, String.append_assoc]⟩,
    ⟨"Exception occurred in " ++ cl.client ++ " " ++ pyStr fn ++ ": "
       ++ e.className ++ ": ", "",
     by simp [excSummary, String.append_assoc, String.append_empty]⟩,
    by simp [AsyncClient._proc_function]⟩

/-- Witness for C1: the `boom` callable raises `ValueError`; the completion
payload on the demo client records the failure with a non-empty summary. -/
theorem proc_function_failure_witness :
    (procPayload demoAsync (some "boom") ⟨[], []⟩ "u" "j").success = some false ∧
    (procPayload demoAsync (some "boom") ⟨[], []⟩ "u" "j").ret
      = some (Except.error
          (excSummary demoAsync.client (some "boom") ⟨"ValueError", "boom"⟩)) ∧
    excSummary demoAsync.client (some "boom") ⟨"ValueError", "boom"⟩ ≠ "" := by
  have h := proc_function_failure demoAsync (some "boom") ⟨[], []⟩ "u" "t" "j"
    ⟨"ValueError", "boom"⟩ (by decide)
  exact ⟨h.1, h.2.1, h.2.2.1⟩

/-- C2: with `fire_event = true` a worker run publishes exactly two events —
the start event on the topic built from the tag and `new`, strictly before the
invocation, then the completion event on the topic built from the tag and
`ret`, strictly after it — both payloads carrying the job id; with
`fire_event = false` it publishes none. -/
theorem proc_function_events (cl : AsyncClient V) (fn : Option String)
    (ld : LowData V) (user tag jid : String) :
    (∃ pre post,
      cl._proc_function fn ld user tag jid true
        = pre ++ Action.invoke fn :: post ∧
      firedEvents pre = [(tagify "new" tag, procData0 cl fn user jid)] ∧
      firedEvents post = [(tagify "ret" tag, procPayload cl fn ld user jid)] ∧
      (procData0 cl fn user jid).jid = jid ∧
      (procPayload cl fn ld user jid).jid = jid) ∧
    firedEvents (cl._proc_function fn ld user tag jid false) = [] := by
  refine ⟨⟨[Action.daemonize, Action.openBus,
      Action.fire (tagify "new" tag) (procData0 cl fn user jid)],
    [Action.fire (tagify "ret" tag) (procPayload cl fn ld user jid),
     Action.closeBus],
    rfl, rfl, rfl, rfl, procPayload_jid cl fn ld user jid⟩, rfl⟩

/-- C7: with `fire_event = true` the worker's bus lifecycle is exactly one
acquisition followed by one release, the release being the final action of
the trace — on every run, in particular when the invocation fails — and with
`fire_event = false` there is no bus action at all. -/
theorem proc_function_bus (cl : AsyncClient V) (fn : Option String)
    (ld : LowData V) (user tag jid : String) (fe : Bool) :
    busActions (cl._proc_function fn ld user tag jid fe)
      = (if fe then [Action.openBus, Action.closeBus] else []) ∧
    (fe = true →
      (cl._proc_function fn ld user tag jid fe).getLast? = some Action.closeBus) := by
  cases fe
  · exact ⟨rfl, fun h => absurd h (by simp)⟩
  · exact ⟨rfl, fun _ => rfl⟩

/-- Witness for C7: on a failing invocation with events on, the demo worker's
trace still opens and then releases the bus, release last. -/
theorem proc_function_bus_witness :
    busActions (demoAsync._proc_function (some "boom") ⟨[], []⟩ "u" "t" "j" true)
      = [Action.openBus, Action.closeBus] ∧
    (demoAsync._proc_function (some "boom") ⟨[], []⟩ "u" "t" "j" true).getLast?
      = some Action.closeBus := by
  have h := proc_function_bus demoAsync (some "boom") ⟨[], []⟩ "u" "t" "j" true
  exact ⟨h.1.trans rfl, h.2 rfl⟩

/-- C9: `async` never consults the registry and never raises: for every
function name, including `None`, empty and unregistered names, it returns the
tag-and-jid handle normally, a handle independent of the registry; name
verification happens only in the spawned worker, where such an error is
observable only as a completion payload with `success = false`. -/
theorem async_handle_spec (cl cl' : AsyncClient V) (now : DateTime)
    (fn : Option String) (ld : LowData V) (user : String) (fe : Bool)
    (hpre : cl'.tagPref = cl.tagPref) :
    (cl.async now fn ld user fe).1
      = ⟨tagifyJid (jidOf now) cl.tagPref, jidOf now⟩ ∧
    (cl.async now fn ld user fe).1 = (cl'.async now fn ld user fe).1 ∧
    (∀ s, fn = some s → s ∉ keys cl.sync.functions →
      (procPayload cl fn ld user (jidOf now)).success = some false) ∧
    ((fn = none ∨ fn = some "") →
      (procPayload cl fn ld user (jidOf now)).success = some false) := by
  refine ⟨rfl, by simp [AsyncClient.async, hpre], ?_, ?_⟩
  · rintro s rfl hm
    by_cases hs : s = ""
    · exact procPayload_success_of_verify_error cl (some s) ld user (jidOf now)
        notSpecifiedError (verify_not_specified cl.sync (some s) (Or.inr (by rw [hs])))
    · exact procPayload_success_of_verify_error cl (some s) ld user (jidOf now)
        (unavailableError s) (verify_unavailable cl.sync s hs hm)
  · intro h
    exact procPayload_success_of_verify_error cl fn ld user (jidOf now)
      notSpecifiedError (verify_not_specified cl.sync fn h)

/-- Witness for C9: dispatching the unregistered name `nope` returns the
handle normally, the same handle an empty-registry client returns, and the
worker-side completion payload records the failure. -/
theorem async_handle_spec_witness :
    (demoAsync.async demoTime1 (some "nope") ⟨[], []⟩ "u" true).1
      = ⟨tagifyJid (jidOf demoTime1) demoAsync.tagPref, jidOf demoTime1⟩ ∧
    (demoAsync.async demoTime1 (some "nope") ⟨[], []⟩ "u" true).1
      = (demoAsync2.async demoTime1 (some "nope") ⟨[], []⟩ "u" true).1 ∧
    (procPayload demoAsync (some "nope") ⟨[], []⟩ "u" (jidOf demoTime1)).success
      = some false := by
  have h := async_handle_spec demoAsync demoAsync2 demoTime1 (some "nope")
    ⟨[], []⟩ "u" true rfl
  exact ⟨h.1, h.2.1, h.2.2.1 "nope" rfl (by decide)⟩

theorem keys_get_docs_none (cl : SyncClient V)
    (strip : Option String → Option String) :
    keys (cl.get_docs strip none) = List.insertionSort pyle (keys cl.functions) := by
  simp only [SyncClient.get_docs, strip_rst, keys, pyTruthy, List.map_map,
    Bool.false_eq_true, if_false]
  exact List.map_id _

theorem mem_get_docs_arg (cl : SyncClient V) (strip : Option String → Option String)
    (a : String) (ha : a ≠ "") (name : String) (d : Option String) :
    (name, d) ∈ cl.get_docs strip (some a) ↔
      (name ∈ keys cl.functions ∧
       (name == a || strStartsWith name
          (if strEndsWith a "." then a else a ++ ".")) = true ∧
       d = strip ((alookup name cl.functions).bind Callable.doc)) := by
  have ht : pyTruthy (some a) = true := by simp [pyTruthy, ha]
  have hperm := List.perm_insertionSort pyle (keys cl.functions)
  simp only [SyncClient.get_docs, ht, if_true, strip_rst, List.map_map, pyStr]
  rw [List.mem_map]
  constructor
  · rintro ⟨f, hf, heq⟩
    have h1 : f = name := congrArg Prod.fst heq
    have h2 : strip ((alookup f cl.functions).bind Callable.doc) = d :=
      congrArg Prod.snd heq
    subst h1
    rcases List.mem_filter.mp hf with ⟨hmem, hpred⟩
    exact ⟨hperm.mem_iff.mp hmem, hpred, h2.symm⟩
  · rintro ⟨hmem, hpred, rfl⟩
    exact ⟨name, List.mem_filter.mpr ⟨hperm.mem_iff.mpr hmem, hpred⟩, rfl⟩

/-- C6: `get_docs()` lists the function names in strictly sorted lexicographic
order, for every registry (with the dict invariant that keys are unique), so
the ordering is by name and not by registration order. -/
theorem get_docs_sorted (cl : SyncClient V) (strip : Option String → Option String)
    (hnd : (keys cl.functions).Nodup) :
    List.Sorted (· < ·) (keys (cl.get_docs strip none)) := by
  rw [keys_get_docs_none]
  have hs : List.Sorted pyle (List.insertionSort pyle (keys cl.functions)) :=
    List.sorted_insertionSort pyle (keys cl.functions)
  have hle : List.Sorted (· ≤ ·) (List.insertionSort pyle (keys cl.functions)) :=
    hs.imp fun h => String.le_iff_toList_le.mpr h
  have hnd' : (List.insertionSort pyle (keys cl.functions)).Nodup :=
    (List.perm_insertionSort pyle (keys cl.functions)).nodup_iff.mpr hnd
  exact hle.lt_of_le hnd'

/-- Witness for C6: the demo registry is registered out of order, yet
`get_docs` lists its names strictly sorted. -/
theorem get_docs_sorted_witness :
    List.Sorted (· < ·) (keys (demoClient.get_docs id none)) :=
  get_docs_sorted demoClient id (by decide)

/-- Counterexample to C8 as stated: the empty-string argument does not end in
a dot, yet Python's truthiness test sends it to the unfiltered branch, so
`get_docs ""` returns entries whose names neither equal `""` nor start with
`"."`. -/
theorem get_docs_empty_arg_cex :
    ("pkg", some "pkg doc") ∈ demoClient.get_docs id (some "") ∧
    ¬("pkg" = "" ∨ strStartsWith "pkg" ("" ++ ".") = true) := by
  constructor
  · decide
  · decide

/-- C8 amended: for every registry and every non-empty prefix argument `p` not
ending in a dot, `get_docs p` returns exactly the entries for names equal to
`p` or starting with `p` followed by a dot (values being the stripped
documentation of that name); `get_docs "pkg"` includes `pkg` itself and every
name starting with `pkg.` and excludes `pkgx`.  (The original claim also
covered the empty string, where the code returns the whole registry.) -/
theorem get_docs_prefix_spec (cl : SyncClient V)
    (strip : Option String → Option String) (p : String) (hp : p ≠ "")
    (hdot : strEndsWith p "." = false) (name : String) (d : Option String) :
    (name, d) ∈ cl.get_docs strip (some p) ↔
      (name ∈ keys cl.functions ∧
       (name = p ∨ (p ++ ".").data <+: name.data) ∧
       d = strip ((alookup name cl.functions).bind Callable.doc)) := by
  rw [mem_get_docs_arg cl strip p hp name d]
  simp [hdot, strStartsWith, List.isPrefixOf_iff_prefix]

/-- Witness for C8 (amended): with the demo registry, `get_docs "pkg"`
includes `pkg` itself and `pkg.install`, and excludes `pkgx`. -/
theorem get_docs_prefix_spec_witness :
    ("pkg", some "pkg doc") ∈ demoClient.get_docs id (some "pkg") ∧
    ("pkg.install", some "pkg.install doc") ∈ demoClient.get_docs id (some "pkg") ∧
    ("pkgx", none) ∉ demoClient.get_docs id (some "pkg") := by
  refine ⟨?_, ?_, ?_⟩
  · exact (get_docs_prefix_spec demoClient id "pkg" (by decide) (by decide)
      "pkg" (some "pkg doc")).mpr ⟨by decide, Or.inl rfl, by decide⟩
  · exact (get_docs_prefix_spec demoClient id "pkg" (by decide) (by decide)
      "pkg.install" (some "pkg.install doc")).mpr
      ⟨by decide, Or.inr (by decide), by decide⟩
  · intro hmem
    have h := (get_docs_prefix_spec demoClient id "pkg" (by decide) (by decide)
      "pkgx" none).mp hmem
    rcases h.2.1 with h1 | h1
    · exact absurd h1 (by decide)
    · exact absurd h1 (by decide)

/-- C10: for every argument `p` that ends with a dot, `get_docs p` returns
exactly the entries whose name equals `p` or starts with `p`; in particular
`get_docs "pkg."` excludes the bare name `pkg` (see the witness, which also
checks that `get_docs "pkg"` includes it). -/
theorem get_docs_dotted_spec (cl : SyncClient V)
    (strip : Option String → Option String) (p : String)
    (hdot : strEndsWith p "." = true) (name : String) (d : Option String) :
    (name, d) ∈ cl.get_docs strip (some p) ↔
      (name ∈ keys cl.functions ∧
       (name = p ∨ p.data <+: name.data) ∧
       d = strip ((alookup name cl.functions).bind Callable.doc)) := by
  have hp : p ≠ "" := by
    rintro rfl
    exact absurd hdot (by decide)
  rw [mem_get_docs_arg cl strip p hp name d]
  simp [hdot, strStartsWith, List.isPrefixOf_iff_prefix]

/-- Witness for C10: `get_docs "pkg."` contains `pkg.install` but not the
bare `pkg`, while `get_docs "pkg"` does contain the bare `pkg`. -/
theorem get_docs_dotted_spec_witness :
    ("pkg.install", some "pkg.install doc") ∈ demoClient.get_docs id (some "pkg.") ∧
    ("pkg", some "pkg doc") ∉ demoClient.get_docs id (some "pkg.") ∧
    ("pkg", some "pkg doc") ∈ demoClient.get_docs id (some "pkg") := by
  refine ⟨?_, ?_, by decide⟩
  · exact (get_docs_dotted_spec demoClient id "pkg." (by decide)
      "pkg.install" (some "pkg.install doc")).mpr
      ⟨by decide, Or.inr (by decide), by decide⟩
  · intro hmem
    have h := (get_docs_dotted_spec demoClient id "pkg." (by decide)
      "pkg" (some "pkg doc")).mp hmem
    rcases h.2.1 with h1 | h1
    · exact absurd h1 (by decide)
    · exact absurd h1 (by decide)

theorem padDigits_mod (w n : Nat) : padDigits w (n % 10 ^ w) = padDigits w n := by
  induction w generalizing n with
  | zero => rfl
  | succ w ih =>
      have hdvd : (10:Nat) ^ w ∣ 10 ^ (w + 1) := ⟨10, by rw [pow_succ]⟩
      have hhead : n % 10 ^ (w + 1) / 10 ^ w % 10 = n / 10 ^ w % 10 := by
        rw [pow_succ, Nat.mod_mul_right_div_self]
        omega
      have htail : padDigits w (n % 10 ^ (w + 1)) = padDigits w n := by
        calc padDigits w (n % 10 ^ (w + 1))
            = padDigits w (n % 10 ^ (w + 1) % 10 ^ w) := (ih _).symm
          _ = padDigits w (n % 10 ^ w) := by rw [Nat.mod_mod_of_dvd n hdvd]
          _ = padDigits w n := ih n
      show Char.ofNat (48 + n % 10 ^ (w + 1) / 10 ^ w % 10)
          :: padDigits w (n % 10 ^ (w + 1))
        = Char.ofNat (48 + n / 10 ^ w % 10) :: padDigits w n
      rw [hhead, htail]

theorem digitChar_lt :
    ∀ x, x < 10 → ∀ y, y < 10 → x < y →
      Char.ofNat (48 + x) < Char.ofNat (48 + y) := by decide

theorem padDigits_lt {w a b : Nat} (hab : a < b) (hb : b < 10 ^ w) :
    List.Lex (· < ·) (padDigits w a) (padDigits w b) := by
  induction w generalizing a b with
  | zero =>
      exact absurd (lt_of_lt_of_le hab (Nat.le_of_lt_succ hb)) (Nat.not_lt_zero a)
  | succ w ih =>
      have hpow : (0:Nat) < 10 ^ w := Nat.pos_pow_of_pos w (by omega)
      have hb10 : b / 10 ^ w < 10 := by
        rw [Nat.div_lt_iff_lt_mul hpow]
        calc b < 10 ^ (w + 1) := hb
          _ = 10 * 10 ^ w := by rw [pow_succ, Nat.mul_comm]
      have ha10 : a / 10 ^ w < 10 := by
        rw [Nat.div_lt_iff_lt_mul hpow]
        calc a < b := hab
          _ < 10 ^ (w + 1) := hb
          _ = 10 * 10 ^ w := by rw [pow_succ, Nat.mul_comm]
      show List.Lex (· < ·)
        (Char.ofNat (48 + a / 10 ^ w % 10) :: padDigits w a)
        (Char.ofNat (48 + b / 10 ^ w % 10) :: padDigits w b)
      rcases Nat.lt_trichotomy (a / 10 ^ w) (b / 10 ^ w) with h | h | h
      · exact List.Lex.rel (by
          rw [Nat.mod_eq_of_lt ha10, Nat.mod_eq_of_lt hb10]
          exact digitChar_lt _ ha10 _ hb10 h)
      · have hmod : a % 10 ^ w < b % 10 ^ w := by
          have hda := Nat.div_add_mod a (10 ^ w)
          have hdb := Nat.div_add_mod b (10 ^ w)
          rw [h] at hda
          omega
        have hheads : Char.ofNat (48 + a / 10 ^ w % 10)
            = Char.ofNat (48 + b / 10 ^ w % 10) := by rw [h]
        rw [hheads, ← padDigits_mod w a, ← padDigits_mod w b]
        exact List.Lex.cons (ih hmod (Nat.mod_lt b hpow))
      · exfalso
        have hda := Nat.div_add_mod a (10 ^ w)
        have hdb := Nat.div_add_mod b (10 ^ w)
        have hrb : b % 10 ^ w < 10 ^ w := Nat.mod_lt b hpow
        have hmul : 10 ^ w * (b / 10 ^ w + 1) ≤ 10 ^ w * (a / 10 ^ w) :=
          Nat.mul_le_mul_left _ (by omega)
        have hexp : 10 ^ w * (b / 10 ^ w + 1)
            = 10 ^ w * (b / 10 ^ w) + 10 ^ w := by ring
        omega

theorem padDigits_append (w1 w2 a b : Nat) (hb : b < 10 ^ w2) :
    padDigits (w1 + w2) (a * 10 ^ w2 + b) = padDigits w1 a ++ padDigits w2 b := by
  induction w1 with
  | zero =>
      rw [Nat.zero_add]
      calc padDigits w2 (a * 10 ^ w2 + b)
          = padDigits w2 ((a * 10 ^ w2 + b) % 10 ^ w2) := (padDigits_mod _ _).symm
        _ = padDigits w2 b := by
            rw [Nat.mul_comm a (10 ^ w2), Nat.mul_add_mod, Nat.mod_eq_of_lt hb]
        _ = [] ++ padDigits w2 b := rfl
  | succ w1 ih =>
      have hpow2 : (0:Nat) < 10 ^ w2 := Nat.pos_pow_of_pos w2 (by omega)
      have hdivb : b / 10 ^ w2 = 0 := Nat.div_eq_of_lt hb
      have hdiv : (a * 10 ^ w2 + b) / 10 ^ (w1 + w2) = a / 10 ^ w1 := by
        rw [pow_add, Nat.mul_comm (10 ^ w1) (10 ^ w2), ← Nat.div_div_eq_div_mul,
          Nat.mul_comm a (10 ^ w2), Nat.mul_add_div hpow2, hdivb, Nat.add_zero]
      rw [Nat.succ_add]
      show Char.ofNat (48 + (a * 10 ^ w2 + b) / 10 ^ (w1 + w2) % 10)
          :: padDigits (w1 + w2) (a * 10 ^ w2 + b)
        = (Char.ofNat (48 + a / 10 ^ w1 % 10) :: padDigits w1 a) ++ padDigits w2 b
      rw [hdiv, ih, List.cons_append]

theorem mix_lt {B a1 a2 b1 b2 : Nat} (hb1 : b1 < B)
    (h : a1 < a2 ∨ (a1 = a2 ∧ b1 < b2)) : a1 * B + b1 < a2 * B + b2 := by
  rcases h with h | ⟨rfl, h⟩
  · calc a1 * B + b1 < a1 * B + B := by omega
      _ = (a1 + 1) * B := (Nat.succ_mul a1 B).symm
      _ ≤ a2 * B := Nat.mul_le_mul_right B h
      _ ≤ a2 * B + b2 := Nat.le_add_right _ _
  · omega

theorem mixStep {B a1 a2 b1 b2 : Nat} {P : Prop} (hb1 : b1 < B)
    (h : a1 < a2 ∨ (a1 = a2 ∧ (b1 < b2 ∨ (b1 = b2 ∧ P)))) :
    a1 * B + b1 < a2 * B + b2 ∨ (a1 * B + b1 = a2 * B + b2 ∧ P) := by
  rcases h with h | ⟨rfl, h | ⟨rfl, hp⟩⟩
  · exact Or.inl (mix_lt hb1 (Or.inl h))
  · exact Or.inl (mix_lt hb1 (Or.inr ⟨rfl, h⟩))
  · exact Or.inr ⟨rfl, hp⟩

theorem stamp_lt_of_before {t u : DateTime} (ht : t.Valid) (hu : u.Valid)
    (hb : t.Before u) : t.stamp < u.stamp := by
  unfold DateTime.Before at hb
  obtain ⟨t1, t2, t3, t4, t5, t6, t7, t8, t9, t10⟩ := ht
  obtain ⟨u1, u2, u3, u4, u5, u6, u7, u8, u9, u10⟩ := hu
  have h2 := mixStep (show t.month < 100 by omega) hb
  have h3 := mixStep (show t.day < 100 by omega) h2
  have h4 := mixStep (show t.hour < 100 by omega) h3
  have h5 := mixStep (show t.minute < 100 by omega) h4
  have h6 := mixStep (show t.second < 100 by omega) h5
  exact mix_lt (show t.usec < 1000000 by omega) h6

theorem stamp_lt_pow {t : DateTime} (ht : t.Valid) : t.stamp < 10 ^ 20 := by
  obtain ⟨t1, t2, t3, t4, t5, t6, t7, t8, t9, t10⟩ := ht
  have hpow : (10:Nat) ^ 20 = 100000000000000000000 := by norm_num
  simp only [DateTime.stamp, DateTime.s6, DateTime.s5, DateTime.s4,
    DateTime.s3, DateTime.s2, hpow]
  omega

theorem jidOf_data {t : DateTime} (ht : t.Valid) :
    (jidOf t).data = padDigits 20 t.stamp := by
  obtain ⟨t1, t2, t3, t4, t5, t6, t7, t8, t9, t10⟩ := ht
  have h100 : (100:Nat) = 10 ^ 2 := by norm_num
  have h1e6 : (1000000:Nat) = 10 ^ 6 := by norm_num
  have e6 : padDigits 20 t.stamp = padDigits 14 t.s6 ++ padDigits 6 t.usec := by
    rw [DateTime.stamp, h1e6]
    exact padDigits_append 14 6 t.s6 t.usec (by omega)
  have e5 : padDigits 14 t.s6 = padDigits 12 t.s5 ++ padDigits 2 t.second := by
    rw [DateTime.s6, h100]
    exact padDigits_append 12 2 t.s5 t.second (by omega)
  have e4 : padDigits 12 t.s5 = padDigits 10 t.s4 ++ padDigits 2 t.minute := by
    rw [DateTime.s5, h100]
    exact padDigits_append 10 2 t.s4 t.minute (by omega)
  have e3 : padDigits 10 t.s4 = padDigits 8 t.s3 ++ padDigits 2 t.hour := by
    rw [DateTime.s4, h100]
    exact padDigits_append 8 2 t.s3 t.hour (by omega)
  have e2 : padDigits 8 t.s3 = padDigits 6 t.s2 ++ padDigits 2 t.day := by
    rw [DateTime.s3, h100]
    exact padDigits_append 6 2 t.s2 t.day (by omega)
  have e1 : padDigits 6 t.s2 = padDigits 4 t.year ++ padDigits 2 t.month := by
    rw [DateTime.s2, h100]
    exact padDigits_append 4 2 t.year t.month (by omega)
  show padDigits 4 t.year ++ padDigits 2 t.month ++ padDigits 2 t.day
      ++ padDigits 2 t.hour ++ padDigits 2 t.minute ++ padDigits 2 t.second
      ++ padDigits 6 t.usec = padDigits 20 t.stamp
  rw [e6, e5, e4, e3, e2, e1]

theorem jidOf_lt_of_before {t u : DateTime} (ht : t.Valid) (hu : u.Valid)
    (hb : t.Before u) : jidOf t < jidOf u := by
  rw [String.lt_iff_toList_lt]
  show List.Lex (· < ·) (jidOf t).data (jidOf u).data
  rw [jidOf_data ht, jidOf_data hu]
  exact padDigits_lt (stamp_lt_of_before ht hu hb) (stamp_lt_pow hu)

/-- C5: job ids generated by `async` in one process are monotone in the
clock: if the second call observes a strictly later clock reading, its jid is
a strictly greater string (the zero-padded timestamp format preserves order),
and two calls whose clock readings fall in the same microsecond receive
identical jids. -/
theorem async_jid_monotone (cl : AsyncClient V) (t1 t2 : DateTime)
    (fn1 fn2 : Option String) (ld1 ld2 : LowData V) (u1 u2 : String)
    (fe1 fe2 : Bool) (h1 : t1.Valid) (h2 : t2.Valid) :
    (t1.Before t2 →
      (cl.async t1 fn1 ld1 u1 fe1).1.jid < (cl.async t2 fn2 ld2 u2 fe2).1.jid) ∧
    (t1 = t2 →
      (cl.async t1 fn1 ld1 u1 fe1).1.jid = (cl.async t2 fn2 ld2 u2 fe2).1.jid) := by
  constructor
  · intro hb
    show jidOf t1 < jidOf t2
    exact jidOf_lt_of_before h1 h2 hb
  · intro he
    show jidOf t1 = jidOf t2
    rw [he]

/-- Witness for C5: one microsecond later gives a strictly greater jid; the
same clock reading gives the same jid even across different dispatch
arguments. -/
theorem async_jid_monotone_witness :
    (demoAsync.async demoTime1 none ⟨[], []⟩ "u" true).1.jid
      < (demoAsync.async demoTime2 none ⟨[], []⟩ "u" true).1.jid ∧
    (demoAsync.async demoTime1 (some "test.ping") ⟨[], []⟩ "u" true).1.jid
      = (demoAsync.async demoTime1 none ⟨[], []⟩ "v" false).1.jid := by
  have h := async_jid_monotone demoAsync demoTime1 demoTime2 none none
    ⟨[], []⟩ ⟨[], []⟩ "u" "u" true true (by decide) (by decide)
  have h' := async_jid_monotone demoAsync demoTime1 demoTime1 (some "test.ping")
    none ⟨[], []⟩ ⟨[], []⟩ "u" "v" true false (by decide) (by decide)
  exact ⟨h.1 (by decide), h'.2 rfl⟩

end Salt
